import Mathlib

/-!
Shallow embedding of `utiles_es.py`, a Spanish-language utility library of
validated console prompts (text, option, integer, float, confirmation, email,
CUIT/CUIL tax id) plus standalone validators and a line classifier.

Modelling conventions:
* Python strings are Lean `String`s; character-level operations work on `.data`.
* `str.strip()` removes the six ASCII whitespace characters (the Python
  behaviour restricted to ASCII, which is the alphabet the library uses).
* `str.upper()`/`str.lower()` are ASCII case maps (`Char.toUpper`/`Char.toLower`).
* `int(...)` is modelled by `pyParseInt` (optional surrounding whitespace,
  optional sign, decimal digits with optional single underscores between them).
* `float(...)` is modelled by `pyParseFloat`, returning a rational, restricted
  to plain sign/digits/point decimal literals.
* The interactive prompt loops read from an explicit list of input lines and
  return a `Resultado` (value, cancellation, or exhausted input) together with
  the list of messages printed along the way.
-/

namespace UtilesEs

/-- ASCII whitespace, the characters removed by Python `str.strip()`. -/
def esEspacio (c : Char) : Bool :=
  c == ' ' || c == '\t' || c == '\n' || c == '\r' || c == '\x0b' || c == '\x0c'

/-- Remove leading whitespace from a character list. -/
def stripIzq (l : List Char) : List Char := l.dropWhile esEspacio

/-- Remove trailing whitespace from a character list. -/
def stripDer (l : List Char) : List Char := (l.reverse.dropWhile esEspacio).reverse

/-- `str.strip()` on character lists. -/
def stripL (l : List Char) : List Char := stripDer (stripIzq l)

/-- Python `s.strip()`. -/
def pyStrip (s : String) : String := ⟨stripL s.data⟩

/-- Python `s.lower()` (ASCII). -/
def pyLower (s : String) : String := ⟨s.data.map Char.toLower⟩

/-- Python `s.upper()` (ASCII). -/
def pyUpper (s : String) : String := ⟨s.data.map Char.toUpper⟩

/-- Numeric value of a digit character, Python `int(d)` for a single digit. -/
def valorDigito (c : Char) : Nat := c.toNat - '0'.toNat

/-- `re.sub(r"\D", "", s)`: the subsequence of digit characters of `s`. -/
def soloDigitos (s : String) : List Char := s.data.filter Char.isDigit

/-- `normalizar_cuit`: returns the 11 digits of a CUIT, or `none`.
Accepts formats with dashes/spaces (all non-digits are discarded). -/
def normalizar_cuit (cuit : String) : Option String :=
  let digitos := soloDigitos cuit
  if digitos.length = 11 then some ⟨digitos⟩ else none

/-- `_dv_cuit`: check digit of a CUIT/CUIL from its first ten digits
(weights 5,4,3,2,7,6,5,4,3,2, sum mod 11, 11 − remainder, 11 ↦ 0, 10 ↦ 9). -/
def _dv_cuit (diez_digitos : String) : Nat :=
  let pesos : List Nat := [5, 4, 3, 2, 7, 6, 5, 4, 3, 2]
  let s := ((diez_digitos.data.zip pesos).map (fun dp => valorDigito dp.1 * dp.2)).sum
  let mod := s % 11
  let dv := 11 - mod
  if dv = 11 then 0 else if dv = 10 then 9 else dv

/-- `validar_cuit`: normalise to 11 digits and compare the claimed check digit
with the computed one. -/
def validar_cuit (cuit : String) : Bool :=
  match normalizar_cuit cuit with
  | none => false
  | some norm => _dv_cuit ⟨norm.data.take 10⟩ == valorDigito (norm.data.getD 10 '0')

/-! ### The email regular expression

`_email_re = re.compile(r"^[A-Za-z0-9._%+-]+@[A-Za-z0-9.-]+\.[A-Za-z]{2,}$")`,
embedded as a `RegularExpression Char` whose anchored-match semantics is the
formal language `matches'`; `re.match` with a trailing `$` on an
already-stripped string is exactly a full match. -/

/-- The 26 upper-case ASCII letters. -/
def letrasMayus : List Char := "ABCDEFGHIJKLMNOPQRSTUVWXYZ".data

/-- The 26 lower-case ASCII letters. -/
def letrasMinus : List Char := "abcdefghijklmnopqrstuvwxyz".data

/-- `[A-Za-z]`. -/
def letras : List Char := letrasMayus ++ letrasMinus

/-- `[0-9]`. -/
def digitos10 : List Char := "0123456789".data

/-- `[A-Za-z0-9._%+-]`, the local-part character class. -/
def localChars : List Char := letras ++ digitos10 ++ ['.', '_', '%', '+', '-']

/-- `[A-Za-z0-9.-]`, the domain character class. -/
def domChars : List Char := letras ++ digitos10 ++ ['.', '-']

/-- A character class `[c₁c₂…]` as a regular expression. -/
def oneOf (cs : List Char) : RegularExpression Char :=
  cs.foldr (fun c r => RegularExpression.char c + r) 0

/-- `r+` (one or more repetitions). -/
def masUno (r : RegularExpression Char) : RegularExpression Char := r * r.star

/-- The compiled email pattern. -/
def _email_re : RegularExpression Char :=
  masUno (oneOf localChars) * RegularExpression.char '@' * masUno (oneOf domChars) *
    RegularExpression.char '.' * (oneOf letras * masUno (oneOf letras))

/-- `validar_email`: strip, then anchored regex match. -/
def validar_email (s : String) : Bool := _email_re.rmatch (pyStrip s).data

/-- The spec's description of the email pattern: a nonempty local part over
`[A-Za-z0-9._%+-]`, an `@`, a nonempty domain over `[A-Za-z0-9.-]`, a dot, and
a TLD of at least two letters. -/
def correoEstructura (l : List Char) : Prop :=
  ∃ a b c : List Char,
    l = a ++ '@' :: (b ++ '.' :: c) ∧
    a ≠ [] ∧ (∀ ch ∈ a, ch ∈ localChars) ∧
    b ≠ [] ∧ (∀ ch ∈ b, ch ∈ domChars) ∧
    2 ≤ c.length ∧ (∀ ch ∈ c, ch ∈ letras)

/-! ### Integer parsing (`int(...)` on strings)

Python `int` on a string allows surrounding whitespace, one optional sign, and
decimal digits with single underscores between digits. -/

/-- Continue a digit run: digits, optionally separated by single underscores. -/
def sigueDigitos (acc : Nat) : List Char → Option Nat
  | [] => some acc
  | c :: resto =>
      if c == '_' then
        match resto with
        | [] => none
        | c2 :: resto2 =>
            if c2.isDigit then sigueDigitos (10 * acc + valorDigito c2) resto2 else none
      else if c.isDigit then sigueDigitos (10 * acc + valorDigito c) resto
      else none

/-- Parse a nonempty digit run (with optional inner underscores) to its value. -/
def digitosPy (l : List Char) : Option Nat :=
  match l with
  | [] => none
  | c :: resto => if c.isDigit then sigueDigitos (valorDigito c) resto else none

/-- Python `int(s)`, returning `none` where Python raises `ValueError`. -/
def pyParseInt (s : String) : Option Int :=
  match (pyStrip s).data with
  | [] => none
  | c :: resto =>
      if c == '+' then (digitosPy resto).map (fun m => (m : Int))
      else if c == '-' then (digitosPy resto).map (fun m => -(m : Int))
      else (digitosPy (c :: resto)).map (fun m => (m : Int))

/-- Decimal rendering of a natural number, most significant digit first
(`fuel` bounds the recursion; `fuel = n` suffices). -/
def renderNatAux : Nat → Nat → List Char
  | 0, _ => []
  | fuel + 1, n =>
      if n = 0 then [] else renderNatAux fuel (n / 10) ++ [Nat.digitChar (n % 10)]

/-- The base-10 string of a natural number. -/
def renderNat (n : Nat) : List Char := if n = 0 then ['0'] else renderNatAux n n

/-- The base-10 string of an integer, as produced by Python `str(n)`. -/
def base10String (n : Int) : String :=
  if n < 0 then ⟨'-' :: renderNat n.natAbs⟩ else ⟨renderNat n.toNat⟩

/-! ### Float parsing (`float(...)`), modelled over `ℚ`

Restricted to plain decimal literals: optional sign, digits, optional point.
(The claims using it never depend on the parse function itself.) -/

/-- Split a character list at its first dot, if any. -/
def splitPunto : List Char → List Char × Option (List Char)
  | [] => ([], none)
  | c :: resto =>
      if c == '.' then ([], some resto)
      else
        let p := splitPunto resto
        (c :: p.1, p.2)

/-- Value of a digit list, most significant first. -/
def valorNat (l : List Char) : Nat := l.foldl (fun a c => 10 * a + valorDigito c) 0

/-- Python `float(s)` restricted to decimal literals, as a rational. -/
def pyParseFloat (s : String) : Option ℚ :=
  let t := (pyStrip s).data
  let signed : Bool × List Char :=
    match t with
    | [] => (false, [])
    | c :: resto =>
        if c == '+' then (false, resto)
        else if c == '-' then (true, resto)
        else (false, t)
  let ent := (splitPunto signed.2).1
  let frac := ((splitPunto signed.2).2).getD []
  if ent.all Char.isDigit && frac.all Char.isDigit && !(ent.isEmpty && frac.isEmpty) then
    some ((if signed.1 then (-1 : ℚ) else 1) *
      ((valorNat ent : ℚ) + (valorNat frac : ℚ) / (10 : ℚ) ^ frac.length))
  else none

/-! ### The prompt loops

Every `pedir_*` function of the source is the same `while True` shape: read a
line, strip it, raise `FlujoCancelado` if it case-insensitively equals the
sentinel, otherwise either return the validated value or print the branch's
error message(s) and loop.  `bucle` is that shape over an explicit list of
input lines; it returns the outcome together with the printed messages. -/

/-- Outcome of a prompt loop run on a finite list of input lines. -/
inductive Resultado (α : Type) where
  | ok : α → Resultado α
  | cancelado : Resultado α
  | agotado : Resultado α
deriving DecidableEq, Repr

/-- `_leer_input`: strip the line; `none` signals `FlujoCancelado`. -/
def _leer_input (linea : String) (cancelar : String) : Option String :=
  let dato := pyStrip linea
  if pyUpper dato == pyUpper cancelar then none else some dato

/-- The common prompt loop: `valida` returns the parsed value when the attempt
succeeds, `msgsError` gives the error messages printed for a failed attempt,
`pre` the messages printed before each read (the option list display). -/
def bucle {α : Type} (valida : String → Option α) (msgsError : String → List String)
    (pre : List String) (cancelar : String) : List String → Resultado α × List String
  | [] => (.agotado, pre)
  | linea :: resto =>
      match _leer_input linea cancelar with
      | none => (.cancelado, pre)
      | some dato =>
          match valida dato with
          | some v => (.ok v, pre)
          | none =>
              let r := bucle valida msgsError pre cancelar resto
              (r.1, pre ++ msgsError dato ++ r.2)

/-! Error/info message texts from the source (quotes elided). -/

def msgVacio : String := "No puede estar vacío. Escriba algo o CANCELAR."
def msgOpcionInvalida : String := "Opción inválida. Intente nuevamente o CANCELAR."
def msgInfoOpciones (opciones : List String) : String :=
  "Opciones válidas: " ++ String.intercalate ", " opciones
def msgEnteroInvalido : String := "Debe ser un número entero."
def msgFloatInvalido : String := "Debe ser un número (use . o , para decimales)."
def msgMinimo {α : Type} [ToString α] (m : α) : String := "Debe ser ≥ " ++ toString m ++ "."
def msgMaximo {α : Type} [ToString α] (m : α) : String := "Debe ser ≤ " ++ toString m ++ "."
def msgConfirmar : String := "Responda s o n (o CANCELAR)."
def msgEmailInvalido : String := "Email inválido. Ej: nombre@dominio.com"
def msgCuitInvalido : String := "CUIT/CUIL inválido. Formato y dígito verificador incorrectos."

/-- `minimo is not None and n < minimo`. -/
def bajoMinimo {α : Type} [LinearOrder α] (minimo : Option α) (n : α) : Bool :=
  match minimo with
  | some m => decide (n < m)
  | none => false

/-- `maximo is not None and n > maximo`. -/
def sobreMaximo {α : Type} [LinearOrder α] (maximo : Option α) (n : α) : Bool :=
  match maximo with
  | some m => decide (m < n)
  | none => false

/-- `pedir_texto`: loop until nonempty (unless allowed) or cancelled. -/
def validaTexto (permitir_vacio : Bool) (dato : String) : Option String :=
  if dato == "" && !permitir_vacio then none else some dato

def pedir_texto (entradas : List String) (permitir_vacio : Bool) (cancelar : String) :
    Resultado String × List String :=
  bucle (validaTexto permitir_vacio) (fun _ => [msgVacio]) [] cancelar entradas

/-- One attempt of `pedir_opcion`: case-insensitive lookup returning the
option in its original (stripped) casing via `.index` on the lowered list. -/
def validaOpcion (opciones : List String) (dato : String) : Option String :=
  let opciones_norm := opciones.map pyStrip
  let opciones_low := opciones_norm.map pyLower
  if opciones_low.contains (pyLower dato) then
    some (opciones_norm.getD (opciones_low.indexOf (pyLower dato)) "")
  else none

def pedir_opcion (entradas : List String) (opciones : List String) (cancelar : String) :
    Resultado String × List String :=
  bucle (validaOpcion opciones) (fun _ => [msgOpcionInvalida])
    [msgInfoOpciones (opciones.map pyStrip)] cancelar entradas

/-- One attempt of `pedir_entero`. -/
def validaEntero (minimo maximo : Option Int) (dato : String) : Option Int :=
  (pyParseInt dato).bind fun n =>
    if bajoMinimo minimo n || sobreMaximo maximo n then none else some n

/-- The error message of a failed `pedir_entero` attempt, one per branch. -/
def msgsEntero (minimo maximo : Option Int) (dato : String) : List String :=
  match pyParseInt dato with
  | none => [msgEnteroInvalido]
  | some n =>
      if bajoMinimo minimo n then [msgMinimo (minimo.getD 0)]
      else if sobreMaximo maximo n then [msgMaximo (maximo.getD 0)]
      else []

def pedir_entero (entradas : List String) (minimo maximo : Option Int) (cancelar : String) :
    Resultado Int × List String :=
  bucle (validaEntero minimo maximo) (msgsEntero minimo maximo) [] cancelar entradas

/-- `dato.replace(",", ".")`. -/
def reemplazaComa (s : String) : String :=
  ⟨s.data.map (fun c => if c == ',' then '.' else c)⟩

/-- One attempt of `pedir_float` (comma rewritten to dot before parsing). -/
def validaFloat (minimo maximo : Option ℚ) (dato : String) : Option ℚ :=
  (pyParseFloat (reemplazaComa dato)).bind fun x =>
    if bajoMinimo minimo x || sobreMaximo maximo x then none else some x

/-- The error message of a failed `pedir_float` attempt. -/
def msgsFloat (minimo maximo : Option ℚ) (dato : String) : List String :=
  match pyParseFloat (reemplazaComa dato) with
  | none => [msgFloatInvalido]
  | some x =>
      if bajoMinimo minimo x then [msgMinimo (minimo.getD 0)]
      else if sobreMaximo maximo x then [msgMaximo (maximo.getD 0)]
      else []

def pedir_float (entradas : List String) (minimo maximo : Option ℚ) (cancelar : String) :
    Resultado ℚ × List String :=
  bucle (validaFloat minimo maximo) (msgsFloat minimo maximo) [] cancelar entradas

/-- One attempt of `confirmar`: s/si/sí ↦ true, n/no ↦ false. -/
def validaConfirmar (dato : String) : Option Bool :=
  if [ "s", "si", "sí" ].contains (pyLower dato) then some true
  else if [ "n", "no" ].contains (pyLower dato) then some false
  else none

def confirmar (entradas : List String) (cancelar : String) :
    Resultado Bool × List String :=
  bucle validaConfirmar (fun _ => [msgConfirmar]) [] cancelar entradas

/-- One attempt of `pedir_email`. -/
def validaEmail (dato : String) : Option String :=
  if validar_email dato then some dato else none

def pedir_email (entradas : List String) (cancelar : String) :
    Resultado String × List String :=
  bucle validaEmail (fun _ => [msgEmailInvalido]) [] cancelar entradas

/-- One attempt of `pedir_cuit`. -/
def validaCuit (dato : String) : Option String :=
  if validar_cuit dato then some dato else none

def pedir_cuit (entradas : List String) (cancelar : String) :
    Resultado String × List String :=
  bucle validaCuit (fun _ => [msgCuitInvalido]) [] cancelar entradas

/-- `filtrar_enteros_validos`: partition raw lines into parsed in-range
integers and the original strings of every other line, in order. -/
def filtrar_enteros_validos (lineas : List String) (minimo maximo : Option Int) :
    List Int × List String :=
  match lineas with
  | [] => ([], [])
  | ln :: resto =>
      let r := filtrar_enteros_validos resto minimo maximo
      match pyParseInt ln with
      | none => (r.1, ln :: r.2)
      | some n =>
          if bajoMinimo minimo n || sobreMaximo maximo n then (r.1, ln :: r.2)
          else (n :: r.1, r.2)

/-- Does this input line trigger cancellation for this sentinel?
(`dato.upper() == cancelar.upper()` after stripping, as in `_leer_input`.) -/
def esCancelacion (linea cancelar : String) : Bool :=
  pyUpper (pyStrip linea) == pyUpper cancelar

/-- Check digit computed as the claim states it: multiply the base digits
position-wise by the weights `[5,4,3,2,7,6,5,4,3,2]`, sum, take
`remainder = sum mod 11` and `candidate = 11 - remainder`, mapping candidate
11 to 0 and candidate 10 to 9, otherwise the candidate itself. -/
def dvClaim (base : List Nat) : Nat :=
  let remainder := (List.zipWith (fun d p => d * p) base [5, 4, 3, 2, 7, 6, 5, 4, 3, 2]).sum % 11
  let candidate := 11 - remainder
  if candidate = 11 then 0 else if candidate = 10 then 9 else candidate

/-- Two characters agree up to swapping the decimal separator. -/
def sepChar (a b : Char) : Bool :=
  a == b || (a == '.' && b == ',') || (a == ',' && b == '.')

/-- Two strings denote the same decimal, differing only in using `.` versus
`,` as the decimal separator (character-wise, separator positions may swap). -/
def esVarianteSep : List Char → List Char → Bool
  | [], [] => true
  | a :: asx, b :: bsx => sepChar a b && esVarianteSep asx bsx
  | _, _ => false

/-- The claim's description of the valid component of
`filtrar_enteros_validos`: the parsed values of the lines that parse as
integers within the bounds, in input order. -/
def enterosValidosSpec (minO maxO : Option Int) (lineas : List String) : List Int :=
  lineas.filterMap (fun ln =>
    match pyParseInt ln with
    | some n => if bajoMinimo minO n || sobreMaximo maxO n then none else some n
    | none => none)

/-- The claim's description of the rejected component: the original strings
of the non-parsing or out-of-range lines, in input order. -/
def rechazadosSpec (minO maxO : Option Int) (lineas : List String) : List String :=
  lineas.filter (fun ln =>
    match pyParseInt ln with
    | some n => bajoMinimo minO n || sobreMaximo maxO n
    | none => true)

/-! #### Language of the email pattern -/

theorem mem_oneOf (cs : List Char) (l : List Char) :
    l ∈ (oneOf cs).matches' ↔ ∃ c ∈ cs, l = [c] := by
  induction cs with
  | nil => simp [oneOf, RegularExpression.matches'_zero, Language.not_mem_zero]
  | cons c cs ih =>
    simp only [oneOf, List.foldr_cons] at *
    rw [RegularExpression.matches'_add, Language.mem_add, ih,
      RegularExpression.matches'_char]
    constructor
    · rintro (h | ⟨d, hd, rfl⟩)
      · exact ⟨c, by simp, h⟩
      · exact ⟨d, by simp [hd], rfl⟩
    · rintro ⟨d, hd, rfl⟩
      rcases List.mem_cons.mp hd with rfl | hd
      · exact Or.inl rfl
      · exact Or.inr ⟨d, hd, rfl⟩

theorem mem_kstar_oneOf (cs : List Char) (l : List Char) :
    l ∈ KStar.kstar ((oneOf cs).matches') ↔ ∀ c ∈ l, c ∈ cs := by
  constructor
  · rw [Language.mem_kstar]
    rintro ⟨L, rfl, hL⟩
    intro c hc
    rcases List.mem_flatten.mp hc with ⟨y, hy, hcy⟩
    rcases (mem_oneOf cs y).mp (hL y hy) with ⟨d, hd, rfl⟩
    rcases List.mem_singleton.mp hcy with rfl
    exact hd
  · intro h
    have hl : ∀ m : List Char, m = (m.map (fun c => [c])).flatten := by
      intro m
      induction m with
      | nil => rfl
      | cons c t iht =>
        simp only [List.map_cons, List.flatten_cons, List.singleton_append]
        exact congrArg (List.cons c) iht
    rw [hl l]
    refine Language.join_mem_kstar ?_
    intro y hy
    rcases List.mem_map.mp hy with ⟨c, hc, rfl⟩
    exact (mem_oneOf cs [c]).mpr ⟨c, h c hc, rfl⟩

/-- Membership in the language of a product, stated on regular expressions. -/
theorem mem_mul_re (P Q : RegularExpression Char) (l : List Char) :
    l ∈ (P * Q).matches' ↔
      ∃ a ∈ P.matches', ∃ b ∈ Q.matches', a ++ b = l := by
  rw [RegularExpression.matches'_mul]; exact Language.mem_mul

theorem mem_masUno_oneOf (cs : List Char) (l : List Char) :
    l ∈ (masUno (oneOf cs)).matches' ↔ l ≠ [] ∧ ∀ c ∈ l, c ∈ cs := by
  rw [masUno, mem_mul_re]
  constructor
  · rintro ⟨a, ha, b, hb, rfl⟩
    rcases (mem_oneOf cs a).mp ha with ⟨c, hc, rfl⟩
    rw [RegularExpression.matches'_star] at hb
    have hball := (mem_kstar_oneOf cs b).mp hb
    refine ⟨by simp, ?_⟩
    intro d hd
    rcases List.mem_append.mp hd with hd | hd
    · rcases List.mem_singleton.mp hd with rfl; exact hc
    · exact hball d hd
  · rintro ⟨hne, hall⟩
    match l, hne with
    | c :: t, _ =>
      refine ⟨[c], (mem_oneOf cs [c]).mpr ⟨c, hall c (by simp), rfl⟩, t, ?_, rfl⟩
      rw [RegularExpression.matches'_star]
      exact (mem_kstar_oneOf cs t).mpr (fun d hd => hall d (List.mem_cons_of_mem c hd))

theorem mem_char_iff (a : Char) (l : List Char) :
    l ∈ (RegularExpression.char a).matches' ↔ l = [a] := by
  rw [RegularExpression.matches'_char]; exact Set.mem_singleton_iff

/-- The email regular expression matches exactly the strings of the structural
description `correoEstructura`. -/
theorem email_matches_iff (l : List Char) :
    l ∈ _email_re.matches' ↔ correoEstructura l := by
  rw [_email_re]
  constructor
  · intro h
    obtain ⟨x, hx, t, ht, rfl⟩ := (mem_mul_re _ _ _).mp h
    obtain ⟨y, hy, v, hv, rfl⟩ := (mem_mul_re _ _ _).mp hx
    obtain ⟨z, hz, b, hb, rfl⟩ := (mem_mul_re _ _ _).mp hy
    obtain ⟨a, ha, w, hw, rfl⟩ := (mem_mul_re _ _ _).mp hz
    obtain ⟨c1, hc1, crest, hcrest, rfl⟩ := (mem_mul_re _ _ _).mp ht
    rcases (mem_char_iff '@' w).mp hw with rfl
    rcases (mem_char_iff '.' v).mp hv with rfl
    rcases (mem_masUno_oneOf localChars a).mp ha with ⟨hane, haall⟩
    rcases (mem_masUno_oneOf domChars b).mp hb with ⟨hbne, hball⟩
    rcases (mem_oneOf letras c1).mp hc1 with ⟨c0, hc0, rfl⟩
    rcases (mem_masUno_oneOf letras crest).mp hcrest with ⟨hcne, hcall⟩
    refine ⟨a, b, c0 :: crest, by simp, hane, haall, hbne, hball, ?_, ?_⟩
    · have hne : crest.length ≠ 0 := fun h0 => hcne (List.length_eq_zero.mp h0)
      simpa using Nat.succ_le_succ (Nat.one_le_iff_ne_zero.mpr hne)
    · intro ch hch
      rcases List.mem_cons.mp hch with rfl | hch
      · exact hc0
      · exact hcall ch hch
  · rintro ⟨a, b, c, rfl, hane, haall, hbne, hball, hclen, hcall⟩
    match c, hclen, hcall with
    | c0 :: crest, hclen, hcall =>
      have hcrestne : crest ≠ [] := by
        intro h0; subst h0; simp at hclen
      refine (mem_mul_re _ _ _).mpr ⟨a ++ '@' :: (b ++ ['.']), ?_, c0 :: crest, ?_, by simp⟩
      · refine (mem_mul_re _ _ _).mpr ⟨a ++ '@' :: b, ?_, ['.'],
          (mem_char_iff '.' ['.']).mpr rfl, by simp⟩
        refine (mem_mul_re _ _ _).mpr ⟨a ++ ['@'], ?_, b,
          (mem_masUno_oneOf domChars b).mpr ⟨hbne, hball⟩, by simp⟩
        exact (mem_mul_re _ _ _).mpr ⟨a,
          (mem_masUno_oneOf localChars a).mpr ⟨hane, haall⟩,
          ['@'], (mem_char_iff '@' ['@']).mpr rfl, rfl⟩
      · exact (mem_mul_re _ _ _).mpr ⟨[c0],
          (mem_oneOf letras [c0]).mpr ⟨c0, hcall c0 (by simp), rfl⟩,
          crest, (mem_masUno_oneOf letras crest).mpr
            ⟨hcrestne, fun d hd => hcall d (List.mem_cons_of_mem c0 hd)⟩, rfl⟩

/-! #### CUIT/CUIL claims -/

/-- The source's check-digit computation agrees with the claim's wording. -/
theorem dv_cuit_eq_dvClaim (t : List Char) :
    _dv_cuit ⟨t⟩ = dvClaim (t.map valorDigito) := by
  have h : (t.zip ([5, 4, 3, 2, 7, 6, 5, 4, 3, 2] : List Nat)).map
        (fun dp => valorDigito dp.1 * dp.2) =
      List.zipWith (fun d p => d * p) (t.map valorDigito)
        [5, 4, 3, 2, 7, 6, 5, 4, 3, 2] := by
    rw [List.zip_eq_zipWith, List.map_zipWith, List.zipWith_map_left]
  simp only [_dv_cuit, dvClaim]
  rw [h]

/-- C1: for every input string, `validar_cuit` returns true iff, after
stripping every non-digit character, exactly 11 digits remain and the 11th
digit equals the check digit computed from the first 10 by the weighted
mod-11 formula with weights [5,4,3,2,7,6,5,4,3,2] (11 ↦ 0, 10 ↦ 9). -/
theorem validar_cuit_caracterizacion (s : String) :
    validar_cuit s = true ↔
      ((soloDigitos s).length = 11 ∧
        valorDigito ((soloDigitos s).getD 10 '0') =
          dvClaim (((soloDigitos s).take 10).map valorDigito)) := by
  unfold validar_cuit normalizar_cuit
  by_cases h : (soloDigitos s).length = 11
  · rw [if_pos h]
    have hdata : (String.mk (soloDigitos s)).data = soloDigitos s := rfl
    have hdv := dv_cuit_eq_dvClaim ((soloDigitos s).take 10)
    simp only [hdata, hdv, beq_iff_eq]
    constructor
    · intro heq; exact ⟨h, heq.symm⟩
    · intro heq; exact heq.2.symm
  · rw [if_neg h]
    simp [h]

/-- C9: `validar_cuit` depends only on the digit characters of its input
(`validar_cuit s = validar_cuit` of the digit subsequence of `s`), and
`normalizar_cuit` returns exactly that digit subsequence when it has length
11, `none` otherwise. -/
theorem validar_cuit_depende_solo_digitos (s : String) :
    validar_cuit s = validar_cuit ⟨soloDigitos s⟩ ∧
      normalizar_cuit s =
        (if (soloDigitos s).length = 11 then some (⟨soloDigitos s⟩ : String) else none) := by
  have hfix : soloDigitos ⟨soloDigitos s⟩ = soloDigitos s :=
    List.filter_eq_self.mpr (fun a ha => List.of_mem_filter ha)
  constructor
  · unfold validar_cuit normalizar_cuit
    rw [hfix]
  · rfl

/-! #### Stripping is idempotent -/

theorem dropWhile_idem (p : Char → Bool) (l : List Char) :
    (l.dropWhile p).dropWhile p = l.dropWhile p := by
  induction l with
  | nil => rfl
  | cons c t ih =>
    rw [List.dropWhile_cons]
    by_cases h : p c
    · rw [if_pos h]; exact ih
    · rw [if_neg h, List.dropWhile_cons, if_neg h]

theorem stripIzq_idem (l : List Char) : stripIzq (stripIzq l) = stripIzq l :=
  dropWhile_idem esEspacio l

theorem stripDer_idem (l : List Char) : stripDer (stripDer l) = stripDer l := by
  unfold stripDer
  rw [List.reverse_reverse, dropWhile_idem]

theorem stripDer_prefix (l : List Char) : stripDer l <+: l := by
  have h1 : (l.reverse.dropWhile esEspacio) <:+ l.reverse := List.dropWhile_suffix _
  have h2 : (l.reverse.dropWhile esEspacio).reverse.reverse <:+ l.reverse := by
    rw [List.reverse_reverse]; exact h1
  exact List.reverse_suffix.mp h2

/-- A list already free of leading whitespace stays so after right-stripping. -/
theorem stripIzq_stripDer (l : List Char) (hl : stripIzq l = l) :
    stripIzq (stripDer l) = stripDer l := by
  cases hd : stripDer l with
  | nil => rfl
  | cons d t =>
    obtain ⟨r, hr⟩ := stripDer_prefix l
    rw [hd] at hr
    have hx : l = d :: (t ++ r) := by rw [← hr]; rfl
    have hpd : esEspacio d = false := by
      by_contra hc
      have hpd : esEspacio d = true := Bool.of_not_eq_false hc
      have hlen := congrArg List.length hl
      rw [hx] at hlen
      conv at hlen => lhs; rw [stripIzq, List.dropWhile_cons, if_pos hpd]
      have hle : ((t ++ r).dropWhile esEspacio).length ≤ (t ++ r).length :=
        (List.dropWhile_suffix _).length_le
      simp only [List.length_cons] at hlen
      omega
    rw [stripIzq, List.dropWhile_cons, if_neg (by simp [hpd])]

theorem stripL_idem (l : List Char) : stripL (stripL l) = stripL l := by
  unfold stripL
  rw [stripIzq_stripDer (stripIzq l) (stripIzq_idem l), stripDer_idem]

/-- C10: `validar_email` is insensitive to surrounding whitespace:
`validar_email s` equals `validar_email` of the stripped input. -/
theorem validar_email_insensible_espacios (s : String) :
    validar_email s = validar_email (pyStrip s) := by
  unfold validar_email pyStrip
  rw [show (String.mk (stripL s.data)).data = stripL s.data from rfl, stripL_idem]

/-- C7, amended (the pattern is matched against the whitespace-stripped
input): `validar_email` accepts exactly the strings whose stripped form is a
nonempty local part over letters/digits/`._%+-`, an `@`, a nonempty domain
over letters/digits/`.-`, a dot, and a TLD of at least two letters; in
particular the four sample strings behave as stated. -/
theorem validar_email_caracterizacion :
    (∀ s : String, validar_email s = true ↔ correoEstructura (pyStrip s).data) ∧
      validar_email "a@b.com" = true ∧ validar_email "a.b+c@d.co" = true ∧
      validar_email "a@b" = false ∧ validar_email "@b.com" = false := by
  refine ⟨fun s => ?_, by decide, by decide, by decide, by decide⟩
  rw [validar_email, ← email_matches_iff]
  exact RegularExpression.rmatch_iff_matches' _ _

/-- C7 as stated is refuted by `" a@b.com "`: `validar_email` accepts it, but
it does not match the anchored pattern (it starts with a space). -/
theorem validar_email_contraejemplo :
    validar_email " a@b.com " = true ∧ ¬ correoEstructura " a@b.com ".data := by
  refine ⟨by decide, fun h => ?_⟩
  have h2 : _email_re.rmatch " a@b.com ".data = true :=
    (RegularExpression.rmatch_iff_matches' _ _).mpr ((email_matches_iff _).mpr h)
  have h3 : _email_re.rmatch " a@b.com ".data = false := by decide
  rw [h2] at h3
  exact absurd h3 (by decide)

/-! #### Generic facts about the prompt loop -/

theorem leer_input_eq (l c : String) :
    _leer_input l c = if esCancelacion l c then none else some (pyStrip l) := rfl

theorem bucle_cons {α : Type} (valida : String → Option α) (msgs : String → List String)
    (pre : List String) (c : String) (l : String) (resto : List String) :
    bucle valida msgs pre c (l :: resto) =
      match _leer_input l c with
      | none => (.cancelado, pre)
      | some dato =>
          match valida dato with
          | some v => (.ok v, pre)
          | none =>
              ((bucle valida msgs pre c resto).1,
                pre ++ msgs dato ++ (bucle valida msgs pre c resto).2) := rfl

/-- A sentinel line cancels at once, whatever follows it. -/
theorem bucle_cancela {α : Type} (valida : String → Option α) (msgs : String → List String)
    (pre : List String) (c : String) (l : String) (resto : List String)
    (h : esCancelacion l c = true) :
    bucle valida msgs pre c (l :: resto) = (.cancelado, pre) := by
  rw [bucle_cons, leer_input_eq, if_pos h]

/-- A valid non-sentinel line returns its value at once. -/
theorem bucle_acepta {α : Type} (valida : String → Option α) (msgs : String → List String)
    (pre : List String) (c : String) (l : String) (resto : List String) (v : α)
    (hc : esCancelacion l c = false) (hv : valida (pyStrip l) = some v) :
    bucle valida msgs pre c (l :: resto) = (.ok v, pre) := by
  rw [bucle_cons, leer_input_eq, if_neg (by simp [hc])]
  simp only [hv]

/-- An invalid non-sentinel line prints its messages and continues the loop. -/
theorem bucle_continua {α : Type} (valida : String → Option α) (msgs : String → List String)
    (pre : List String) (c : String) (l : String) (resto : List String)
    (hc : esCancelacion l c = false) (hv : valida (pyStrip l) = none) :
    bucle valida msgs pre c (l :: resto) =
      ((bucle valida msgs pre c resto).1,
        pre ++ msgs (pyStrip l) ++ (bucle valida msgs pre c resto).2) := by
  rw [bucle_cons, leer_input_eq, if_neg (by simp [hc])]
  simp only [hv]

/-- Any number of invalid attempts leaves the outcome untouched: the loop has
no retry limit. -/
theorem bucle_prefijo_invalido {α : Type} (valida : String → Option α)
    (msgs : String → List String) (pre : List String) (c : String)
    (pref resto : List String)
    (h : ∀ l ∈ pref, esCancelacion l c = false ∧ valida (pyStrip l) = none) :
    (bucle valida msgs pre c (pref ++ resto)).1 = (bucle valida msgs pre c resto).1 := by
  induction pref with
  | nil => rfl
  | cons l t ih =>
    have hl := h l (List.mem_cons_self l t)
    rw [List.cons_append, bucle_continua valida msgs pre c l (t ++ resto) hl.1 hl.2]
    exact ih (fun x hx => h x (List.mem_cons_of_mem l hx))

/-- The loop returns a value only by reaching a non-sentinel line that
validates to that value. -/
theorem bucle_ok_tiene_testigo {α : Type} (valida : String → Option α)
    (msgs : String → List String) (pre : List String) (c : String)
    (entradas : List String) (v : α)
    (h : (bucle valida msgs pre c entradas).1 = .ok v) :
    ∃ l ∈ entradas, esCancelacion l c = false ∧ valida (pyStrip l) = some v := by
  induction entradas with
  | nil => exact absurd h (by simp [bucle])
  | cons l resto ih =>
    by_cases hc : esCancelacion l c = true
    · rw [bucle_cancela valida msgs pre c l resto hc] at h
      exact absurd h (by simp)
    · have hc2 : esCancelacion l c = false := Bool.not_eq_true _ ▸ eq_false_of_ne_true hc
      cases hv : valida (pyStrip l) with
      | some w =>
        rw [bucle_acepta valida msgs pre c l resto w hc2 hv] at h
        have hw : w = v := by simpa using h
        exact ⟨l, List.mem_cons_self l resto, hc2, hw ▸ hv⟩
      | none =>
        rw [bucle_continua valida msgs pre c l resto hc2 hv] at h
        obtain ⟨x, hx, hxc, hxv⟩ := ih h
        exact ⟨x, List.mem_cons_of_mem l hx, hxc, hxv⟩

/-- The loop cancels only by reaching a line matching the sentinel. -/
theorem bucle_cancelado_tiene_testigo {α : Type} (valida : String → Option α)
    (msgs : String → List String) (pre : List String) (c : String)
    (entradas : List String)
    (h : (bucle valida msgs pre c entradas).1 = .cancelado) :
    ∃ l ∈ entradas, esCancelacion l c = true := by
  induction entradas with
  | nil => exact absurd h (by simp [bucle])
  | cons l resto ih =>
    by_cases hc : esCancelacion l c = true
    · exact ⟨l, List.mem_cons_self l resto, hc⟩
    · have hc2 : esCancelacion l c = false := Bool.not_eq_true _ ▸ eq_false_of_ne_true hc
      cases hv : valida (pyStrip l) with
      | some w =>
        rw [bucle_acepta valida msgs pre c l resto w hc2 hv] at h
        exact absurd h (by simp)
      | none =>
        rw [bucle_continua valida msgs pre c l resto hc2 hv] at h
        obtain ⟨x, hx, hxc⟩ := ih h
        exact ⟨x, List.mem_cons_of_mem l hx, hxc⟩

/-- C2: for every request operation and every sentinel, a line whose trimmed
form case-insensitively equals the sentinel raises the cancellation signal at
once — the outcome is `cancelado` for any continuation of the input, so the
signal propagates to the caller instead of being retried inside the loop. -/
theorem cancelacion_en_toda_operacion (l c : String) (h : esCancelacion l c = true)
    (resto : List String) (pv : Bool) (opciones : List String)
    (minI maxI : Option Int) (minQ maxQ : Option ℚ) :
    pedir_texto (l :: resto) pv c = (.cancelado, []) ∧
    pedir_opcion (l :: resto) opciones c =
      (.cancelado, [msgInfoOpciones (opciones.map pyStrip)]) ∧
    pedir_entero (l :: resto) minI maxI c = (.cancelado, []) ∧
    pedir_float (l :: resto) minQ maxQ c = (.cancelado, []) ∧
    confirmar (l :: resto) c = (.cancelado, []) ∧
    pedir_email (l :: resto) c = (.cancelado, []) ∧
    pedir_cuit (l :: resto) c = (.cancelado, []) :=
  ⟨bucle_cancela _ _ _ _ _ _ h, bucle_cancela _ _ _ _ _ _ h,
    bucle_cancela _ _ _ _ _ _ h, bucle_cancela _ _ _ _ _ _ h,
    bucle_cancela _ _ _ _ _ _ h, bucle_cancela _ _ _ _ _ _ h,
    bucle_cancela _ _ _ _ _ _ h⟩

/-- Witness for C2 at a concrete input: "  CanCeLar " cancels `pedir_texto`
and `pedir_entero` even with more input available. -/
theorem cancelacion_en_toda_operacion_testigo :
    pedir_texto ["  CanCeLar ", "hola"] false "CANCELAR" = (.cancelado, []) ∧
    pedir_entero ["  CanCeLar ", "3"] (some 0) (some 9) "CANCELAR" = (.cancelado, []) :=
  ⟨(cancelacion_en_toda_operacion "  CanCeLar " "CANCELAR" (by decide)
      ["hola"] false [] none none none none).1,
    (cancelacion_en_toda_operacion "  CanCeLar " "CANCELAR" (by decide)
      ["3"] false [] (some 0) (some 9) none none).2.2.1⟩

/-- C8: every request operation is an instance of the common loop `bucle`,
which has no retry limit — any prefix of invalid non-sentinel lines leaves
the outcome unchanged (a validation failure only continues the loop, it is
never raised as an error), a value is returned only on reaching a line that
passes validation, and cancellation is raised only on reaching a sentinel
line; the same three facts are then instantiated for the two cited
operations, `pedir_texto` and `pedir_email`. -/
theorem bucle_sin_limite_de_reintentos :
    (∀ (α : Type) (valida : String → Option α) (msgs : String → List String)
        (pre : List String) (c : String) (pref resto : List String),
        (∀ l ∈ pref, esCancelacion l c = false ∧ valida (pyStrip l) = none) →
        (bucle valida msgs pre c (pref ++ resto)).1 = (bucle valida msgs pre c resto).1) ∧
    (∀ (α : Type) (valida : String → Option α) (msgs : String → List String)
        (pre : List String) (c : String) (entradas : List String) (v : α),
        (bucle valida msgs pre c entradas).1 = .ok v →
        ∃ l ∈ entradas, esCancelacion l c = false ∧ valida (pyStrip l) = some v) ∧
    (∀ (α : Type) (valida : String → Option α) (msgs : String → List String)
        (pre : List String) (c : String) (entradas : List String),
        (bucle valida msgs pre c entradas).1 = .cancelado →
        ∃ l ∈ entradas, esCancelacion l c = true) ∧
    (∀ (pv : Bool) (c : String) (pref resto : List String),
        (∀ l ∈ pref, esCancelacion l c = false ∧ validaTexto pv (pyStrip l) = none) →
        (pedir_texto (pref ++ resto) pv c).1 = (pedir_texto resto pv c).1) ∧
    (∀ (pv : Bool) (c : String) (entradas : List String) (v : String),
        (pedir_texto entradas pv c).1 = .ok v →
        ∃ l ∈ entradas, esCancelacion l c = false ∧ validaTexto pv (pyStrip l) = some v) ∧
    (∀ (pv : Bool) (c : String) (entradas : List String),
        (pedir_texto entradas pv c).1 = .cancelado →
        ∃ l ∈ entradas, esCancelacion l c = true) ∧
    (∀ (c : String) (pref resto : List String),
        (∀ l ∈ pref, esCancelacion l c = false ∧ validaEmail (pyStrip l) = none) →
        (pedir_email (pref ++ resto) c).1 = (pedir_email resto c).1) ∧
    (∀ (c : String) (entradas : List String) (v : String),
        (pedir_email entradas c).1 = .ok v →
        ∃ l ∈ entradas, esCancelacion l c = false ∧ validaEmail (pyStrip l) = some v) ∧
    (∀ (c : String) (entradas : List String),
        (pedir_email entradas c).1 = .cancelado →
        ∃ l ∈ entradas, esCancelacion l c = true) :=
  ⟨fun _ valida msgs pre c pref resto h => bucle_prefijo_invalido valida msgs pre c pref resto h,
    fun _ valida msgs pre c entradas v h => bucle_ok_tiene_testigo valida msgs pre c entradas v h,
    fun _ valida msgs pre c entradas h => bucle_cancelado_tiene_testigo valida msgs pre c entradas h,
    fun _ c pref resto h => bucle_prefijo_invalido _ _ _ c pref resto h,
    fun _ c entradas v h => bucle_ok_tiene_testigo _ _ _ c entradas v h,
    fun _ c entradas h => bucle_cancelado_tiene_testigo _ _ _ c entradas h,
    fun c pref resto h => bucle_prefijo_invalido _ _ _ c pref resto h,
    fun c entradas v h => bucle_ok_tiene_testigo _ _ _ c entradas v h,
    fun c entradas h => bucle_cancelado_tiene_testigo _ _ _ c entradas h⟩

/-- Witness for C8: two empty attempts before "hola" do not change the
outcome of `pedir_texto`, which is `ok "hola"`. -/
theorem bucle_sin_limite_de_reintentos_testigo :
    (pedir_texto ([ "", " " ] ++ [ "hola" ]) false "CANCELAR").1 =
      (pedir_texto [ "hola" ] false "CANCELAR").1 ∧
    (pedir_texto [ "hola" ] false "CANCELAR").1 = .ok "hola" :=
  ⟨bucle_sin_limite_de_reintentos.2.2.2.1 false "CANCELAR" [ "", " " ] [ "hola" ]
      (by decide),
    by decide⟩

/-- A successful option lookup returns the first stripped option whose
lower-case form matches the lower-cased input. -/
theorem validaOpcion_encuentra (opciones : List String) (dato : String)
    (h : pyLower dato ∈ (opciones.map pyStrip).map pyLower) :
    ∃ om ∈ opciones, pyLower (pyStrip om) = pyLower dato ∧
      validaOpcion opciones dato = some (pyStrip om) := by
  have hcont : ((opciones.map pyStrip).map pyLower).contains (pyLower dato) = true :=
    List.elem_iff.mpr h
  have hi : ((opciones.map pyStrip).map pyLower).indexOf (pyLower dato) <
      ((opciones.map pyStrip).map pyLower).length := List.indexOf_lt_length.mpr h
  set i := ((opciones.map pyStrip).map pyLower).indexOf (pyLower dato) with hidef
  have hi2 : i < (opciones.map pyStrip).length := by simpa using hi
  have hi3 : i < opciones.length := by simpa using hi
  have hlowi : ((opciones.map pyStrip).map pyLower)[i] = pyLower dato :=
    List.getElem_indexOf hi
  have hnormi : (opciones.map pyStrip)[i] = pyStrip opciones[i] := by
    simp [List.getElem_map]
  refine ⟨opciones[i], List.getElem_mem hi3, ?_, ?_⟩
  · rw [← hnormi]
    rw [List.getElem_map] at hlowi
    exact hlowi
  · rw [validaOpcion]
    simp only [hcont, if_true]
    rw [List.getD_eq_getElem (opciones.map pyStrip) ("") hi2, hnormi]

/-- C4, amended (the returned option is additionally whitespace-stripped):
for every option set and every non-sentinel input line whose stripped,
lower-cased form matches some member, `pedir_opcion` returns that member in
the casing supplied in the option set (stripped), not the casing typed. -/
theorem pedir_opcion_conserva_forma (opciones : List String) (o : String)
    (ho : o ∈ opciones) (l c : String) (resto : List String)
    (hl : pyLower (pyStrip l) = pyLower (pyStrip o))
    (hc : esCancelacion l c = false) :
    ∃ om ∈ opciones, pyLower (pyStrip om) = pyLower (pyStrip l) ∧
      (pedir_opcion (l :: resto) opciones c).1 = .ok (pyStrip om) := by
  have hmem : pyLower (pyStrip l) ∈ (opciones.map pyStrip).map pyLower := by
    rw [hl]
    exact List.mem_map.mpr ⟨pyStrip o, List.mem_map.mpr ⟨o, ho, rfl⟩, rfl⟩
  obtain ⟨om, hom, homl, hval⟩ := validaOpcion_encuentra opciones (pyStrip l) hmem
  refine ⟨om, hom, homl, ?_⟩
  rw [pedir_opcion, bucle_acepta _ _ _ _ _ _ _ hc hval]

/-- Witness for C4 (amended): input "ROJO" against option set ["Rojo"]
returns "Rojo", the casing of the set. -/
theorem pedir_opcion_conserva_forma_testigo :
    ∃ om ∈ [ "Rojo" ], pyLower (pyStrip om) = pyLower (pyStrip "ROJO") ∧
      (pedir_opcion [ "ROJO" ] [ "Rojo" ] "CANCELAR").1 = .ok (pyStrip om) :=
  pedir_opcion_conserva_forma [ "Rojo" ] "Rojo" (by decide) "ROJO" "CANCELAR" []
    (by decide) (by decide)

/-- C4 as stated is refuted: with option set `[" Si"]` and input `" Si"`
(a casing variant of the member, indeed the member itself), the returned
value is the stripped form "Si", not the member exactly as it appears in the
set. -/
theorem pedir_opcion_contraejemplo :
    (pedir_opcion [ " Si" ] [ " Si" ] "CANCELAR").1 = .ok "Si" ∧
      (pedir_opcion [ " Si" ] [ " Si" ] "CANCELAR").1 ≠ .ok " Si" := by
  decide

/-! #### Decimal strings round-trip through `int(...)` -/

theorem digitChar_mem_digitos10 : ∀ k, k < 10 → Nat.digitChar k ∈ digitos10 := by decide

theorem digitos10_isDigit : ∀ c ∈ digitos10, c.isDigit = true := by decide

theorem digitos10_no_espacio : ∀ c ∈ digitos10, esEspacio c = false := by decide

theorem digitos10_no_guion : ∀ c ∈ digitos10, (c == '_') = false := by decide

theorem digitos10_no_signo :
    ∀ c ∈ digitos10, (c == '+') = false ∧ (c == '-') = false := by decide

theorem digitos10_mayus_ne : ∀ c ∈ digitos10, c.toUpper ≠ 'C' := by decide

theorem valorDigito_digitChar : ∀ k, k < 10 → valorDigito (Nat.digitChar k) = k := by decide

theorem renderNatAux_mem (fuel : Nat) :
    ∀ (n : Nat), ∀ c ∈ renderNatAux fuel n, c ∈ digitos10 := by
  induction fuel with
  | zero =>
    intro n c hc
    exact absurd hc (List.not_mem_nil c)
  | succ f ih =>
    intro n c hc
    rw [renderNatAux] at hc
    by_cases hn : n = 0
    · rw [if_pos hn] at hc
      exact absurd hc (List.not_mem_nil c)
    · rw [if_neg hn] at hc
      rcases List.mem_append.mp hc with h | h
      · exact ih (n / 10) c h
      · rcases List.mem_singleton.mp h with rfl
        exact digitChar_mem_digitos10 _ (Nat.mod_lt n (by norm_num))

theorem renderNat_mem (n : Nat) : ∀ c ∈ renderNat n, c ∈ digitos10 := by
  intro c hc
  rw [renderNat] at hc
  by_cases hn : n = 0
  · rw [if_pos hn] at hc
    rcases List.mem_singleton.mp hc with rfl
    decide
  · rw [if_neg hn] at hc
    exact renderNatAux_mem n n c hc

theorem renderNat_ne_nil (n : Nat) : renderNat n ≠ [] := by
  rw [renderNat]
  by_cases hn : n = 0
  · rw [if_pos hn]; simp
  · rw [if_neg hn]
    cases n with
    | zero => exact absurd rfl hn
    | succ m =>
      rw [renderNatAux, if_neg hn]
      simp

theorem sigueDigitos_todo_digitos (l : List Char) :
    ∀ (acc : Nat), (∀ c ∈ l, c ∈ digitos10) →
      sigueDigitos acc l = some (l.foldl (fun a c => 10 * a + valorDigito c) acc) := by
  induction l with
  | nil => intro acc _; rfl
  | cons c t ih =>
    intro acc h
    have hc := h c (List.mem_cons_self c t)
    have hne : (c == '_') = false := digitos10_no_guion c hc
    have hdig : c.isDigit = true := digitos10_isDigit c hc
    rw [sigueDigitos.eq_def]
    simp only [hne, Bool.false_eq_true, if_false, hdig, if_true]
    rw [ih (10 * acc + valorDigito c) (fun x hx => h x (List.mem_cons_of_mem c hx))]
    rw [List.foldl_cons]

theorem digitosPy_todo_digitos (l : List Char) (hne : l ≠ [])
    (h : ∀ c ∈ l, c ∈ digitos10) :
    digitosPy l = some (l.foldl (fun a c => 10 * a + valorDigito c) 0) := by
  match l, hne with
  | c :: t, _ =>
    have hc := h c (List.mem_cons_self c t)
    rw [digitosPy]
    simp only [digitos10_isDigit c hc, if_true]
    rw [sigueDigitos_todo_digitos t (valorDigito c)
      (fun x hx => h x (List.mem_cons_of_mem c hx))]
    rw [List.foldl_cons]
    norm_num

theorem renderNatAux_foldl (fuel : Nat) :
    ∀ (n acc : Nat), n ≤ fuel →
      (renderNatAux fuel n).foldl (fun a c => 10 * a + valorDigito c) acc =
        acc * 10 ^ (renderNatAux fuel n).length + n := by
  induction fuel with
  | zero =>
    intro n acc h
    have hn : n = 0 := Nat.le_zero.mp h
    subst hn
    simp [renderNatAux]
  | succ f ih =>
    intro n acc h
    by_cases hn : n = 0
    · subst hn; simp [renderNatAux]
    · rw [renderNatAux, if_neg hn, List.foldl_append, ih (n / 10) acc (by omega)]
      simp only [List.foldl_cons, List.foldl_nil, List.length_append, List.length_cons,
        List.length_nil]
      rw [valorDigito_digitChar (n % 10) (Nat.mod_lt n (by norm_num))]
      have hpow : acc * (10 : Nat) ^ ((renderNatAux f (n / 10)).length + 0 + 1) =
          acc * 10 ^ (renderNatAux f (n / 10)).length * 10 := by
        rw [Nat.add_zero, pow_succ, Nat.mul_assoc]
      rw [hpow]
      generalize acc * (10 : Nat) ^ (renderNatAux f (n / 10)).length = A
      omega

theorem digitosPy_renderNat (n : Nat) : digitosPy (renderNat n) = some n := by
  by_cases hn : n = 0
  · subst hn; decide
  · rw [digitosPy_todo_digitos (renderNat n) (renderNat_ne_nil n) (renderNat_mem n)]
    rw [renderNat, if_neg hn, renderNatAux_foldl n n 0 (le_refl n)]
    simp

/-- A list free of whitespace is fixed by stripping. -/
theorem stripL_fijo (l : List Char) (h : ∀ c ∈ l, esEspacio c = false) :
    stripL l = l := by
  have hIzq : ∀ (m : List Char), (∀ c ∈ m, esEspacio c = false) →
      m.dropWhile esEspacio = m := by
    intro m hm
    cases m with
    | nil => rfl
    | cons c t =>
      rw [List.dropWhile_cons, if_neg (by simp [hm c (List.mem_cons_self c t)])]
  rw [stripL, stripIzq, stripDer, hIzq l h,
    hIzq l.reverse (fun c hc => h c (List.mem_reverse.mp hc)), List.reverse_reverse]

theorem base10_chars (n : Int) :
    ∀ c ∈ (base10String n).data, c = '-' ∨ c ∈ digitos10 := by
  intro c hc
  rw [base10String] at hc
  by_cases hn : n < 0
  · rw [if_pos hn] at hc
    rcases List.mem_cons.mp hc with rfl | hd
    · exact Or.inl rfl
    · exact Or.inr (renderNat_mem _ c hd)
  · rw [if_neg hn] at hc
    exact Or.inr (renderNat_mem _ c hc)

theorem pyStrip_base10String (n : Int) : pyStrip (base10String n) = base10String n := by
  have h : ∀ c ∈ (base10String n).data, esEspacio c = false := by
    intro c hc
    rcases base10_chars n c hc with rfl | hd
    · decide
    · exact digitos10_no_espacio c hd
  show String.mk (stripL (base10String n).data) = base10String n
  rw [stripL_fijo _ h]

theorem esCancelacion_base10String (n : Int) :
    esCancelacion (base10String n) "CANCELAR" = false := by
  by_contra hc
  have h : esCancelacion (base10String n) "CANCELAR" = true := Bool.of_not_eq_false hc
  rw [esCancelacion, pyStrip_base10String] at h
  have heq : pyUpper (base10String n) = pyUpper "CANCELAR" := eq_of_beq h
  have hdata : (base10String n).data.map Char.toUpper = "CANCELAR".data :=
    congrArg String.data heq
  have hhead := congrArg List.head? hdata
  rw [base10String] at hhead
  by_cases hn : n < 0
  · rw [if_pos hn] at hhead
    simp only [List.map_cons, List.head?_cons] at hhead
    exact absurd hhead (by decide)
  · rw [if_neg hn] at hhead
    obtain ⟨c, t, hct⟩ : ∃ c t, renderNat n.toNat = c :: t := by
      cases h0 : renderNat n.toNat with
      | nil => exact absurd h0 (renderNat_ne_nil _)
      | cons c t => exact ⟨c, t, rfl⟩
    have hcm : c ∈ digitos10 := by
      have := renderNat_mem n.toNat c
      rw [hct] at this
      exact this (List.mem_cons_self c t)
    rw [show (String.mk (renderNat n.toNat)).data = renderNat n.toNat from rfl, hct] at hhead
    simp only [List.map_cons, List.head?_cons] at hhead
    exact absurd (Option.some.inj hhead) (digitos10_mayus_ne c hcm)

theorem pyParseInt_base10String (n : Int) : pyParseInt (base10String n) = some n := by
  rw [pyParseInt, pyStrip_base10String]
  by_cases hn : n < 0
  · rw [base10String, if_pos hn]
    show (digitosPy (renderNat n.natAbs)).map (fun m => -(m : Int)) = some n
    rw [digitosPy_renderNat]
    show some (-(n.natAbs : Int)) = some n
    congr 1
    omega
  · rw [base10String, if_neg hn]
    obtain ⟨c, t, hct⟩ : ∃ c t, renderNat n.toNat = c :: t := by
      cases h0 : renderNat n.toNat with
      | nil => exact absurd h0 (renderNat_ne_nil _)
      | cons c t => exact ⟨c, t, rfl⟩
    have hcm : c ∈ digitos10 := by
      have := renderNat_mem n.toNat c
      rw [hct] at this
      exact this (List.mem_cons_self c t)
    rw [show (String.mk (renderNat n.toNat)).data = renderNat n.toNat from rfl, hct]
    show (if c == '+' then (digitosPy t).map (fun m => (m : Int))
      else if c == '-' then (digitosPy t).map (fun m => -(m : Int))
      else (digitosPy (c :: t)).map (fun m => (m : Int))) = some n
    rw [(digitos10_no_signo c hcm).1, (digitos10_no_signo c hcm).2]
    simp only [Bool.false_eq_true, if_false]
    rw [← hct, digitosPy_renderNat]
    show some ((n.toNat : Int)) = some n
    congr 1
    omega

theorem getD9_prefijo (p rest : String) (hp : 9 < p.data.length) :
    ((p ++ rest).data.getD 9 ' ') = p.data.getD 9 ' ' := by
  rw [String.data_append, List.getD_append _ _ _ _ hp]

theorem msgMinimo_char9 (m : Int) : (msgMinimo m).data.getD 9 ' ' = '≥' := by
  rw [msgMinimo, getD9_prefijo ("Debe ser ≥ " ++ toString m) "."
    (by rw [String.data_append, List.length_append]
        have h11 : ("Debe ser ≥ ").data.length = 11 := by decide
        omega),
    getD9_prefijo ("Debe ser ≥ ") (toString m) (by decide)]
  decide

theorem msgMaximo_char9 (m : Int) : (msgMaximo m).data.getD 9 ' ' = '≤' := by
  rw [msgMaximo, getD9_prefijo ("Debe ser ≤ " ++ toString m) "."
    (by rw [String.data_append, List.length_append]
        have h11 : ("Debe ser ≤ ").data.length = 11 := by decide
        omega),
    getD9_prefijo ("Debe ser ≤ ") (toString m) (by decide)]
  decide

/-- The three rejection branches of `pedir_entero` print pairwise distinct
messages, whatever the bounds. -/
theorem mensajes_entero_distintos (m k : Int) :
    msgEnteroInvalido ≠ msgMinimo m ∧ msgEnteroInvalido ≠ msgMaximo k ∧
      msgMinimo m ≠ msgMaximo k := by
  have hent : msgEnteroInvalido.data.getD 9 ' ' = 'u' := by decide
  refine ⟨fun h => ?_, fun h => ?_, fun h => ?_⟩
  · have hgd := congrArg (fun s => s.data.getD 9 ' ') h
    simp only at hgd
    rw [hent, msgMinimo_char9 m] at hgd
    exact absurd hgd (by decide)
  · have hgd := congrArg (fun s => s.data.getD 9 ' ') h
    simp only at hgd
    rw [hent, msgMaximo_char9 k] at hgd
    exact absurd hgd (by decide)
  · have hgd := congrArg (fun s => s.data.getD 9 ' ') h
    simp only at hgd
    rw [msgMinimo_char9 m, msgMaximo_char9 k] at hgd
    exact absurd hgd (by decide)

/-- C5: feeding `pedir_entero` the base-10 string of an in-range `n` returns
`n` unchanged; feeding minimum−1 (resp. maximum+1) does not return but
continues the loop, each on its own branch with its own message; non-numeric
input continues on a third branch; the three messages are pairwise
distinct. -/
theorem pedir_entero_rango :
    (∀ (n minI maxI : Int) (resto : List String), minI ≤ n → n ≤ maxI →
      pedir_entero (base10String n :: resto) (some minI) (some maxI) "CANCELAR" =
        (.ok n, [])) ∧
    (∀ (minI : Int) (maxO : Option Int) (resto : List String),
      pedir_entero (base10String (minI - 1) :: resto) (some minI) maxO "CANCELAR" =
        ((pedir_entero resto (some minI) maxO "CANCELAR").1,
          msgMinimo minI :: (pedir_entero resto (some minI) maxO "CANCELAR").2)) ∧
    (∀ (minI maxI : Int) (resto : List String), minI ≤ maxI + 1 →
      pedir_entero (base10String (maxI + 1) :: resto) (some minI) (some maxI) "CANCELAR" =
        ((pedir_entero resto (some minI) (some maxI) "CANCELAR").1,
          msgMaximo maxI :: (pedir_entero resto (some minI) (some maxI) "CANCELAR").2)) ∧
    (∀ (l : String) (minO maxO : Option Int) (resto : List String),
      esCancelacion l "CANCELAR" = false → pyParseInt (pyStrip l) = none →
      pedir_entero (l :: resto) minO maxO "CANCELAR" =
        ((pedir_entero resto minO maxO "CANCELAR").1,
          msgEnteroInvalido :: (pedir_entero resto minO maxO "CANCELAR").2)) ∧
    (∀ m k : Int, msgEnteroInvalido ≠ msgMinimo m ∧ msgEnteroInvalido ≠ msgMaximo k ∧
      msgMinimo m ≠ msgMaximo k) := by
  refine ⟨?_, ?_, ?_, ?_, fun m k => mensajes_entero_distintos m k⟩
  · intro n minI maxI resto hmin hmax
    have h1 : bajoMinimo (some minI) n = false := by
      simp only [bajoMinimo, decide_eq_false_iff_not]
      omega
    have h2 : sobreMaximo (some maxI) n = false := by
      simp only [sobreMaximo, decide_eq_false_iff_not]
      omega
    have hv : validaEntero (some minI) (some maxI) (pyStrip (base10String n)) = some n := by
      rw [pyStrip_base10String, validaEntero, pyParseInt_base10String]
      simp [h1, h2]
    rw [pedir_entero]
    exact bucle_acepta _ _ _ _ _ _ _ (esCancelacion_base10String n) hv
  · intro minI maxO resto
    have h1 : bajoMinimo (some minI) (minI - 1) = true := by
      simp only [bajoMinimo, decide_eq_true_eq]
      omega
    have hv : validaEntero (some minI) maxO (pyStrip (base10String (minI - 1))) = none := by
      rw [pyStrip_base10String, validaEntero, pyParseInt_base10String]
      simp [h1]
    have hm : msgsEntero (some minI) maxO (pyStrip (base10String (minI - 1))) =
        [msgMinimo minI] := by
      rw [pyStrip_base10String]
      unfold msgsEntero
      rw [pyParseInt_base10String]
      simp [h1]
    rw [pedir_entero, bucle_continua _ _ _ _ _ _ (esCancelacion_base10String _) hv, hm]
    rfl
  · intro minI maxI resto hle
    have h1 : bajoMinimo (some minI) (maxI + 1) = false := by
      simp only [bajoMinimo, decide_eq_false_iff_not]
      omega
    have h2 : sobreMaximo (some maxI) (maxI + 1) = true := by
      simp only [sobreMaximo, decide_eq_true_eq]
      omega
    have hv : validaEntero (some minI) (some maxI) (pyStrip (base10String (maxI + 1))) =
        none := by
      rw [pyStrip_base10String, validaEntero, pyParseInt_base10String]
      simp [h1, h2]
    have hm : msgsEntero (some minI) (some maxI) (pyStrip (base10String (maxI + 1))) =
        [msgMaximo maxI] := by
      rw [pyStrip_base10String]
      unfold msgsEntero
      rw [pyParseInt_base10String]
      simp [h1, h2]
    rw [pedir_entero, bucle_continua _ _ _ _ _ _ (esCancelacion_base10String _) hv, hm]
    rfl
  · intro l minO maxO resto hc hparse
    have hv : validaEntero minO maxO (pyStrip l) = none := by
      rw [validaEntero, hparse]
      rfl
    have hm : msgsEntero minO maxO (pyStrip l) = [msgEnteroInvalido] := by
      unfold msgsEntero
      rw [hparse]
    rw [pedir_entero, bucle_continua _ _ _ _ _ _ hc hv, hm]
    rfl

/-- Witness for C5: `pedir_entero` on "7" with bounds [0, 10] returns 7, and
on "-1" (0 − 1) continues with the below-minimum message. -/
theorem pedir_entero_rango_testigo :
    pedir_entero (base10String 7 :: []) (some 0) (some 10) "CANCELAR" = (.ok 7, []) ∧
    pedir_entero (base10String (0 - 1) :: []) (some 0) (some 10) "CANCELAR" =
      ((pedir_entero [] (some 0) (some 10) "CANCELAR").1,
        msgMinimo 0 :: (pedir_entero [] (some 0) (some 10) "CANCELAR").2) :=
  ⟨pedir_entero_rango.1 7 0 10 [] (by decide) (by decide),
    pedir_entero_rango.2.1 0 (some 10) []⟩

/-! #### Separator variants -/

theorem sepChar_cases (a b : Char) (h : sepChar a b = true) :
    a = b ∨ (a = '.' ∧ b = ',') ∨ (a = ',' ∧ b = '.') := by
  simp only [sepChar, Bool.or_eq_true, Bool.and_eq_true, beq_iff_eq] at h
  rcases h with (h | h) | h
  · exact Or.inl h
  · exact Or.inr (Or.inl h)
  · exact Or.inr (Or.inr h)

theorem sepChar_espacio (a b : Char) (h : sepChar a b = true) :
    esEspacio a = esEspacio b := by
  rcases sepChar_cases a b h with rfl | ⟨rfl, rfl⟩ | ⟨rfl, rfl⟩
  · rfl
  · decide
  · decide

theorem sepChar_symm (a b : Char) (h : sepChar a b = true) : sepChar b a = true := by
  rcases sepChar_cases a b h with rfl | ⟨rfl, rfl⟩ | ⟨rfl, rfl⟩
  · simp [sepChar]
  · decide
  · decide

theorem esVarianteSep_symm : ∀ (l₁ l₂ : List Char), esVarianteSep l₁ l₂ = true →
    esVarianteSep l₂ l₁ = true
  | [], [], _ => rfl
  | [], _ :: _, h => absurd h (by simp [esVarianteSep])
  | _ :: _, [], h => absurd h (by simp [esVarianteSep])
  | a :: as, b :: bs, h => by
    rw [esVarianteSep, Bool.and_eq_true] at h
    rw [esVarianteSep, Bool.and_eq_true]
    exact ⟨sepChar_symm a b h.1, esVarianteSep_symm as bs h.2⟩

theorem esVarianteSep_append : ∀ (l₁ l₂ r₁ r₂ : List Char),
    esVarianteSep l₁ l₂ = true → esVarianteSep r₁ r₂ = true →
    esVarianteSep (l₁ ++ r₁) (l₂ ++ r₂) = true
  | [], [], r₁, r₂, _, hr => hr
  | [], _ :: _, _, _, h, _ => absurd h (by simp [esVarianteSep])
  | _ :: _, [], _, _, h, _ => absurd h (by simp [esVarianteSep])
  | a :: as, b :: bs, r₁, r₂, h, hr => by
    rw [esVarianteSep, Bool.and_eq_true] at h
    rw [List.cons_append, List.cons_append, esVarianteSep, Bool.and_eq_true]
    exact ⟨h.1, esVarianteSep_append as bs r₁ r₂ h.2 hr⟩

theorem esVarianteSep_reverse : ∀ (l₁ l₂ : List Char), esVarianteSep l₁ l₂ = true →
    esVarianteSep l₁.reverse l₂.reverse = true
  | [], [], _ => rfl
  | [], _ :: _, h => absurd h (by simp [esVarianteSep])
  | _ :: _, [], h => absurd h (by simp [esVarianteSep])
  | a :: as, b :: bs, h => by
    rw [esVarianteSep, Bool.and_eq_true] at h
    rw [List.reverse_cons, List.reverse_cons]
    exact esVarianteSep_append as.reverse bs.reverse [a] [b]
      (esVarianteSep_reverse as bs h.2)
      (by rw [esVarianteSep, Bool.and_eq_true]; exact ⟨h.1, rfl⟩)

theorem esVarianteSep_dropWhile : ∀ (l₁ l₂ : List Char), esVarianteSep l₁ l₂ = true →
    esVarianteSep (l₁.dropWhile esEspacio) (l₂.dropWhile esEspacio) = true
  | [], [], _ => rfl
  | [], _ :: _, h => absurd h (by simp [esVarianteSep])
  | _ :: _, [], h => absurd h (by simp [esVarianteSep])
  | a :: as, b :: bs, h => by
    rw [esVarianteSep, Bool.and_eq_true] at h
    have hesp := sepChar_espacio a b h.1
    rw [List.dropWhile_cons, List.dropWhile_cons, ← hesp]
    by_cases ha : esEspacio a = true
    · rw [if_pos ha, if_pos ha]
      exact esVarianteSep_dropWhile as bs h.2
    · rw [if_neg ha, if_neg ha]
      rw [esVarianteSep, Bool.and_eq_true]
      exact h

theorem esVarianteSep_stripL (l₁ l₂ : List Char) (h : esVarianteSep l₁ l₂ = true) :
    esVarianteSep (stripL l₁) (stripL l₂) = true := by
  rw [stripL, stripL, stripIzq, stripIzq, stripDer, stripDer]
  exact esVarianteSep_reverse _ _
    (esVarianteSep_dropWhile _ _
      (esVarianteSep_reverse _ _ (esVarianteSep_dropWhile _ _ h)))

/-- Variants with no separators in the left list are equal. -/
theorem esVarianteSep_sin_sep : ∀ (l₁ l₂ : List Char), esVarianteSep l₁ l₂ = true →
    '.' ∉ l₁ → ',' ∉ l₁ → l₂ = l₁
  | [], [], _, _, _ => rfl
  | [], _ :: _, h, _, _ => absurd h (by simp [esVarianteSep])
  | _ :: _, [], h, _, _ => absurd h (by simp [esVarianteSep])
  | a :: as, b :: bs, h, hdot, hcom => by
    rw [esVarianteSep, Bool.and_eq_true] at h
    have htail := esVarianteSep_sin_sep as bs h.2
      (fun hm => hdot (List.mem_cons_of_mem a hm))
      (fun hm => hcom (List.mem_cons_of_mem a hm))
    rcases sepChar_cases a b h.1 with rfl | ⟨rfl, rfl⟩ | ⟨rfl, rfl⟩
    · rw [htail]
    · exact absurd (List.mem_cons_self _ _) hdot
    · exact absurd (List.mem_cons_self _ _) hcom

theorem esVarianteSep_reemplaza : ∀ (l₁ l₂ : List Char), esVarianteSep l₁ l₂ = true →
    l₁.map (fun c => if c == ',' then '.' else c) =
      l₂.map (fun c => if c == ',' then '.' else c)
  | [], [], _ => rfl
  | [], _ :: _, h => absurd h (by simp [esVarianteSep])
  | _ :: _, [], h => absurd h (by simp [esVarianteSep])
  | a :: as, b :: bs, h => by
    rw [esVarianteSep, Bool.and_eq_true] at h
    rw [List.map_cons, List.map_cons, esVarianteSep_reemplaza as bs h.2]
    rcases sepChar_cases a b h.1 with rfl | ⟨rfl, rfl⟩ | ⟨rfl, rfl⟩
    · rfl
    · rfl
    · rfl

/-- A separator variant of a line matching the sentinel (whose text has no
separator characters) is that very line. -/
theorem esVarianteSep_cancelacion (u v : String)
    (huv : esVarianteSep (pyStrip u).data (pyStrip v).data = true)
    (hu : esCancelacion u "CANCELAR" = true) :
    esCancelacion v "CANCELAR" = true := by
  have hequ : pyUpper (pyStrip u) = pyUpper "CANCELAR" := eq_of_beq hu
  have hdat : (pyStrip u).data.map Char.toUpper = "CANCELAR".data := by
    have h0 := congrArg String.data hequ
    rw [show (pyUpper "CANCELAR").data = "CANCELAR".data from by decide] at h0
    exact h0
  have hdot : '.' ∉ (pyStrip u).data := by
    intro hmem
    have h1 : ('.' : Char).toUpper ∈ (pyStrip u).data.map Char.toUpper :=
      List.mem_map_of_mem _ hmem
    rw [hdat, show ('.' : Char).toUpper = '.' from by decide] at h1
    exact absurd h1 (by decide)
  have hcom : ',' ∉ (pyStrip u).data := by
    intro hmem
    have h1 : (',' : Char).toUpper ∈ (pyStrip u).data.map Char.toUpper :=
      List.mem_map_of_mem _ hmem
    rw [hdat, show (',' : Char).toUpper = ',' from by decide] at h1
    exact absurd h1 (by decide)
  have heq2 : (pyStrip v).data = (pyStrip u).data :=
    esVarianteSep_sin_sep _ _ huv hdot hcom
  have heqS : pyStrip v = pyStrip u := congrArg String.mk heq2
  rw [esCancelacion, heqS]
  exact hu

/-- C6: two input lines that differ only in using "." versus "," as the
decimal separator make `pedir_float` behave identically — same outcome, same
messages — because the comma is rewritten to a dot before parsing. -/
theorem pedir_float_separador (s t : String) (minQ maxQ : Option ℚ)
    (resto : List String) (h : esVarianteSep s.data t.data = true) :
    pedir_float (s :: resto) minQ maxQ "CANCELAR" =
      pedir_float (t :: resto) minQ maxQ "CANCELAR" := by
  have hvar : esVarianteSep (pyStrip s).data (pyStrip t).data = true :=
    esVarianteSep_stripL s.data t.data h
  by_cases hcs : esCancelacion s "CANCELAR" = true
  · have hct := esVarianteSep_cancelacion s t hvar hcs
    rw [pedir_float, pedir_float, bucle_cancela _ _ _ _ _ _ hcs,
      bucle_cancela _ _ _ _ _ _ hct]
  · have hcs2 : esCancelacion s "CANCELAR" = false := Bool.not_eq_true _ ▸ eq_false_of_ne_true hcs
    have hct2 : esCancelacion t "CANCELAR" = false := by
      by_contra hcc
      exact hcs (esVarianteSep_cancelacion t s
        (esVarianteSep_symm _ _ hvar) (Bool.of_not_eq_false hcc))
    have hrep : reemplazaComa (pyStrip t) = reemplazaComa (pyStrip s) :=
      (congrArg String.mk (esVarianteSep_reemplaza _ _ hvar)).symm
    have hval : validaFloat minQ maxQ (pyStrip t) = validaFloat minQ maxQ (pyStrip s) := by
      rw [validaFloat, validaFloat, hrep]
    have hmsg : msgsFloat minQ maxQ (pyStrip t) = msgsFloat minQ maxQ (pyStrip s) := by
      unfold msgsFloat
      rw [hrep]
    cases hv : validaFloat minQ maxQ (pyStrip s) with
    | some v =>
      have hvt : validaFloat minQ maxQ (pyStrip t) = some v := by rw [hval, hv]
      rw [pedir_float, pedir_float, bucle_acepta _ _ _ _ _ _ _ hcs2 hv,
        bucle_acepta _ _ _ _ _ _ _ hct2 hvt]
    | none =>
      have hvt : validaFloat minQ maxQ (pyStrip t) = none := by rw [hval, hv]
      rw [pedir_float, pedir_float, bucle_continua _ _ _ _ _ _ hcs2 hv,
        bucle_continua _ _ _ _ _ _ hct2 hvt, hmsg]

/-- Witness for C6: "1,5" and "1.5" give the same `pedir_float` result. -/
theorem pedir_float_separador_testigo :
    pedir_float [ "1,5" ] none none "CANCELAR" =
      pedir_float [ "1.5" ] none none "CANCELAR" :=
  pedir_float_separador "1,5" "1.5" none none [] (by decide)

/-- C3: `filtrar_enteros_validos` partitions its lines, in order, into the
parsed values of the lines that parse as integers within the bounds and the
original strings of every other line; in particular
`["5", "abc", "12", "-1"]` with bounds 0..10 yields `([5], ["abc", "12", "-1"])`. -/
theorem filtrar_enteros_particion :
    (∀ (lineas : List String) (minO maxO : Option Int),
      filtrar_enteros_validos lineas minO maxO =
        (enterosValidosSpec minO maxO lineas, rechazadosSpec minO maxO lineas)) ∧
    filtrar_enteros_validos [ "5", "abc", "12", "-1" ] (some 0) (some 10) =
      ([5], [ "abc", "12", "-1" ]) := by
  have filtrar_cons : ∀ (ln : String) (resto : List String) (minO maxO : Option Int),
      filtrar_enteros_validos (ln :: resto) minO maxO =
        (match pyParseInt ln with
         | none => ((filtrar_enteros_validos resto minO maxO).1,
             ln :: (filtrar_enteros_validos resto minO maxO).2)
         | some n =>
             if bajoMinimo minO n || sobreMaximo maxO n then
               ((filtrar_enteros_validos resto minO maxO).1,
                 ln :: (filtrar_enteros_validos resto minO maxO).2)
             else (n :: (filtrar_enteros_validos resto minO maxO).1,
                 (filtrar_enteros_validos resto minO maxO).2)) :=
    fun ln resto minO maxO => rfl
  refine ⟨?_, by decide⟩
  intro lineas minO maxO
  induction lineas with
  | nil => rfl
  | cons ln resto ih =>
    cases hp : pyParseInt ln with
    | none =>
      have h1 : enterosValidosSpec minO maxO (ln :: resto) =
          enterosValidosSpec minO maxO resto :=
        List.filterMap_cons_none (by simp [hp])
      have h2 : rechazadosSpec minO maxO (ln :: resto) =
          ln :: rechazadosSpec minO maxO resto :=
        List.filter_cons_of_pos (by simp [hp])
      simp only [filtrar_cons, hp, ih, h1, h2]
    | some n =>
      by_cases hr : (bajoMinimo minO n || sobreMaximo maxO n) = true
      · have h1 : enterosValidosSpec minO maxO (ln :: resto) =
            enterosValidosSpec minO maxO resto :=
          List.filterMap_cons_none (by simp [hp, hr])
        have h2 : rechazadosSpec minO maxO (ln :: resto) =
            ln :: rechazadosSpec minO maxO resto :=
          List.filter_cons_of_pos (by simp [hp, hr])
        simp only [filtrar_cons, hp, ih, h1, h2, hr, if_true]
      · have hr2 : (bajoMinimo minO n || sobreMaximo maxO n) = false :=
          Bool.not_eq_true _ ▸ eq_false_of_ne_true hr
        have h1 : enterosValidosSpec minO maxO (ln :: resto) =
            n :: enterosValidosSpec minO maxO resto :=
          List.filterMap_cons_some (by simp [hp, hr2])
        have h2 : rechazadosSpec minO maxO (ln :: resto) =
            rechazadosSpec minO maxO resto :=
          List.filter_cons_of_neg (by simp [hp, hr2])
        simp only [filtrar_cons, hp, ih, h1, h2, hr2, Bool.false_eq_true, if_false]

end UtilesEs
